import Mathlib

/-!
Formal model of the Action Segment Detection Engine of `processor.py`
(class `VideoProcessor`): motion-score normalization, statistical
threshold segmentation, duration clamping, overlap resolution, and the
remote-API strategy with its local fallback.

Python floats are modelled by `ℚ` (the pipeline only adds, subtracts,
multiplies, divides and compares scores and timestamps); Python lists by
`List`; functions that can raise by `Except String`.  The frame loop of
`_detect_segments_with_motion` (OpenCV decoding and Farneback optical
flow) is external numeric code: its output — the `motion_scores` list of
`{frame, time, score}` dictionaries — is the input of the model, carried
by `VideoSource.opened`.
-/

namespace Clipping

/-- The configuration constants of `config.py` consulted by the detector,
plus the two API switches read in `VideoProcessor.__init__`. -/
structure Config where
  frame_sample_rate : ℕ
  min_clip_length : ℚ
  max_clip_length : ℚ
  target_clip_length : ℚ
  use_clipping_api : Bool
  clipping_api_key : Option String
deriving Repr, DecidableEq

/-- The values of `config.py`: FRAME_SAMPLE_RATE = 2, MIN_CLIP_LENGTH = 15,
MAX_CLIP_LENGTH = 60, TARGET_CLIP_LENGTH = 30, API disabled. -/
def defaultConfig : Config := ⟨2, 15, 60, 30, false, none⟩

/-- One entry of the `motion_scores` list built by the frame loop of
`_detect_segments_with_motion`: keys `frame`, `time`, `score`. -/
structure MotionSample where
  frame : ℕ
  time : ℚ
  score : ℚ
deriving Repr, DecidableEq

/-- A `motion_scores` entry after the normalization pass added the
`normalized_score` key. -/
structure NormSample where
  frame : ℕ
  time : ℚ
  score : ℚ
  normalized_score : ℚ
deriving Repr, DecidableEq

/-- A segment dictionary `{start, end, duration, score, confidence}` as
returned by the detector (`end` is a Lean keyword, hence the guillemets). -/
structure Segment where
  start : ℚ
  «end» : ℚ
  duration : ℚ
  score : ℚ
  confidence : ℚ
deriving Repr, DecidableEq

/-- Python `max(scores)`; the list is nonempty on every call site
(guarded by `if not motion_scores`). -/
def listMax : List ℚ → ℚ
  | [] => 0
  | x :: xs => xs.foldl max x

/-- Python `min(scores)`; nonempty on every call site. -/
def listMin : List ℚ → ℚ
  | [] => 0
  | x :: xs => xs.foldl min x

/-- `np.mean`: sum divided by length. -/
def qMean (l : List ℚ) : ℚ := l.sum / (l.length : ℚ)

/-- The square of `np.std` (population variance, `ddof = 0`):
mean of squared deviations from the mean. -/
def qVar (l : List ℚ) : ℚ :=
  ((l.map fun x => (x - qMean l) ^ 2).sum) / (l.length : ℚ)

/-- `score_range = max_score - min_score if max_score > min_score else 1`
(lines 193–195 of `processor.py`). -/
def scoreRange (ms : List MotionSample) : ℚ :=
  let mx := listMax (ms.map (·.score))
  let mn := listMin (ms.map (·.score))
  if mn < mx then mx - mn else 1

/-- The normalization loop of `_detect_segments_with_motion` (lines
191–198): `m['normalized_score'] = (m['score'] - min_score) / score_range`. -/
def normalize (ms : List MotionSample) : List NormSample :=
  let mn := listMin (ms.map (·.score))
  ms.map fun m => ⟨m.frame, m.time, m.score, (m.score - mn) / scoreRange ms⟩

/-- `window_size = int(fps * segment_duration / self.frame_sample_rate)`
(line 244).  Python `int()` truncates toward zero, which for the
non-negative values arising here is the floor. -/
def windowSize (cfg : Config) (fps dur : ℚ) : ℕ :=
  (⌊fps * dur / (cfg.frame_sample_rate : ℚ)⌋).toNat

/-- `step_size = window_size // 2` (line 245). -/
def stepSize (cfg : Config) (fps dur : ℚ) : ℕ := windowSize cfg fps dur / 2

/-- Python `range(0, stop, step)` for a positive `step`: the multiples of
`step` below `stop`.  (`range` raises `ValueError` for `step = 0`; that
case is signalled by the caller before `pyRange` is reached.) -/
def pyRange (stop : ℤ) (step : ℕ) : List ℕ :=
  List.range' 0 ((stop.toNat + step - 1) / step) step

/-- The start indices visited by the sliding-window loop
`for i in range(0, len(motion_scores) - window_size, step_size)` (line 247),
for a sample sequence of length `n`. -/
def windowStarts (cfg : Config) (fps dur : ℚ) (n : ℕ) : List ℕ :=
  pyRange ((n : ℤ) - (windowSize cfg fps dur : ℤ)) (stepSize cfg fps dur)

/-- The statistical keep test of `_extract_segments_from_scores` (lines
232–251): `avg_score > mean + 0.5 * std` where `std = sqrt variance`,
written in the square-root-free form
`0 < avg - mean ∧ variance < 4 * (avg - mean)^2`, which is equivalent over
the reals — the equivalence with the literal `mean + 0.5·√variance`
threshold is proved in `aboveThreshold_iff_sqrt`. -/
def aboveThreshold (scores : List ℚ) (avg : ℚ) : Bool :=
  decide (0 < avg - qMean scores) &&
    decide (qVar scores < 4 * (avg - qMean scores) ^ 2)

/-- `window = motion_scores[i : i + window_size]` (line 248). -/
def windowSlice (ms : List NormSample) (i ws : ℕ) : List NormSample :=
  (ms.drop i).take ws

/-- `avg_score = np.mean([m['normalized_score'] for m in window])` (line 249). -/
def windowAvg (ms : List NormSample) (i ws : ℕ) : ℚ :=
  qMean ((windowSlice ms i ws).map (·.normalized_score))

/-- `motion_scores[-1]['time']` (line 261); the list is nonempty on every
call site, so the default is never consulted. -/
def lastTime (ms : List NormSample) : ℚ :=
  ((ms.getLast?).map (·.time)).getD 0

/-- The duration-clamping step of `_extract_segments_from_scores` (lines
252–271): a window spanning `[s, e]` is extended symmetrically when it is
shorter than `MIN_CLIP_LENGTH` (the extension clipped to
`[0, motion_scores[-1].time]`), then kept only when its final duration lies
within `[MIN_CLIP_LENGTH, MAX_CLIP_LENGTH]`; `confidence = min(1.0, avg * 1.5)`. -/
def mkCandidate (cfg : Config) (lastT s e avg : ℚ) : Option Segment :=
  let d := e - s
  let s1 := if d < cfg.min_clip_length
    then max 0 (s - (cfg.min_clip_length - d) / 2) else s
  let e1 := if d < cfg.min_clip_length
    then min lastT (e + (cfg.min_clip_length - d) / 2) else e
  let d1 := e1 - s1
  if cfg.min_clip_length ≤ d1 ∧ d1 ≤ cfg.max_clip_length then
    some ⟨s1, e1, d1, avg, min 1 (avg * (3 / 2))⟩
  else none

/-- The duration clamper as the spec words it, for comparison with the
code: identical to `mkCandidate` except that the symmetric extension is
clipped to `[0, video_duration]` — the full duration of the video — where
the source (`processor.py` line 261) clips to `motion_scores[-1]['time']`,
the last sampled timestamp, which is strictly smaller whenever sampling
stops before the end of the video. -/
def mkCandidateClaim (cfg : Config) (videoDuration s e avg : ℚ) : Option Segment :=
  let d := e - s
  let s1 := if d < cfg.min_clip_length
    then max 0 (s - (cfg.min_clip_length - d) / 2) else s
  let e1 := if d < cfg.min_clip_length
    then min videoDuration (e + (cfg.min_clip_length - d) / 2) else e
  let d1 := e1 - s1
  if cfg.min_clip_length ≤ d1 ∧ d1 ≤ cfg.max_clip_length then
    some ⟨s1, e1, d1, avg, min 1 (avg * (3 / 2))⟩
  else none

/-- The start indices whose window clears the statistical threshold
(`if avg_score > threshold`, line 251). -/
def keptStarts (cfg : Config) (ms : List NormSample) (fps dur : ℚ) : List ℕ :=
  (windowStarts cfg fps dur ms.length).filter fun i =>
    aboveThreshold (ms.map (·.normalized_score))
      (windowAvg ms i (windowSize cfg fps dur))

/-- The segment a kept window start produces: `start_time = window[0]['time']`,
`end_time = window[-1]['time']` (lines 252–253) fed into the clamper.
The window is never empty on the reached call sites, so the `none`
fallthrough of the match is unreachable. -/
def candidateOfStart (cfg : Config) (ms : List NormSample) (fps dur : ℚ)
    (i : ℕ) : Option Segment :=
  let w := windowSlice ms i (windowSize cfg fps dur)
  match w.head?, w.getLast? with
  | some w0, some wl =>
      mkCandidate cfg (lastTime ms) w0.time wl.time
        (windowAvg ms i (windowSize cfg fps dur))
  | _, _ => none

/-- The overlap test of `_remove_overlapping_segments` (line 289):
`not (seg['end'] <= existing['start'] or seg['start'] >= existing['end'])`. -/
def overlapB (a b : Segment) : Bool :=
  !(decide (a.«end» ≤ b.start) || decide (a.start ≥ b.«end»))

/-- The accumulator loop of `_remove_overlapping_segments` (lines 284–296):
`non_overlapping` is `acc`; a segment is appended iff it overlaps no
already-accepted one. -/
def removeOverlappingAux (acc : List Segment) : List Segment → List Segment
  | [] => acc
  | s :: rest =>
    if acc.any (fun existing => overlapB s existing) then
      removeOverlappingAux acc rest
    else removeOverlappingAux (acc ++ [s]) rest

/-- `VideoProcessor._remove_overlapping_segments`. -/
def removeOverlapping (segments : List Segment) : List Segment :=
  removeOverlappingAux [] segments

/-- `sorted(segments, key=lambda x: x['score'], reverse=True)` (line 274):
a stable descending sort by score. -/
def sortByScoreDesc (l : List Segment) : List Segment :=
  l.mergeSort fun a b => b.score ≤ a.score

/-- `VideoProcessor._extract_segments_from_scores` (lines 212–277).
The `.error` case models the `ValueError` Python's `range` raises when
`step_size` is `0`. -/
def extractSegmentsFromScores (cfg : Config) (ms : List NormSample)
    (fps dur : ℚ) : Except String (List Segment) :=
  if ms.isEmpty then .ok []
  else if stepSize cfg fps dur = 0 then
    .error "range arg 3 must not be zero"
  else
    .ok (removeOverlapping (sortByScoreDesc
      ((keptStarts cfg ms fps dur).filterMap (candidateOfStart cfg ms fps dur))))

/-- The video as the local pipeline sees it: either the capture cannot be
opened (`cap.isOpened()` false, line 135), or it yields a frame rate and
the `motion_scores` list the frame loop produces. -/
inductive VideoSource where
  | unopenable
  | opened (fps : ℚ) (motionScores : List MotionSample)

/-- The body of `VideoProcessor._detect_segments_with_motion` (lines
133–206), before the enclosing `try/except`: raises on an unopenable
source (line 136), returns `[]` when no motion data was collected
(lines 187–189), and otherwise normalizes and extracts. -/
def detectMotionE (cfg : Config) (v : VideoSource) (dur : ℚ) :
    Except String (List Segment) :=
  match v with
  | .unopenable => .error "Could not open video"
  | .opened fps ms =>
    if ms.isEmpty then .ok []
    else extractSegmentsFromScores cfg (normalize ms) fps dur

/-- `VideoProcessor._detect_segments_with_motion` including its
`except Exception` boundary (lines 208–210): every error becomes `[]`. -/
def detectMotion (cfg : Config) (v : VideoSource) (dur : ℚ) : List Segment :=
  match detectMotionE cfg v dur with
  | .ok l => l
  | .error _ => []

/-- One item of the `segments` array of the remote response body; each
field may be absent (`seg['start_time']` raises `KeyError` when absent,
`seg.get('action_score', 0.5)` defaults). -/
structure RemoteSeg where
  start_time : Option ℚ
  end_time : Option ℚ
  action_score : Option ℚ
  confidence : Option ℚ
deriving Repr, DecidableEq

/-- The outcome of the `requests.post` call of `_detect_segments_with_api`:
a transport-level exception, or an HTTP response with a status code and —
when the body is valid JSON — its parsed `segments` list (`none` models a
body on which `response.json()` raises). -/
inductive ApiResponse where
  | transportFailure
  | http (status : ℕ) (body : Option (List RemoteSeg))

/-- The per-item mapping of the 200 branch (lines 104–111):
`start_time`/`end_time` are mandatory (a missing key raises), the score
and confidence default to `0.5`. -/
def parseRemoteSeg (r : RemoteSeg) : Except String Segment :=
  match r.start_time, r.end_time with
  | some st, some et =>
      .ok ⟨st, et, et - st, r.action_score.getD (1 / 2),
        r.confidence.getD (1 / 2)⟩
  | _, _ => .error "KeyError"

/-- The whole response-body mapping loop (lines 103–111), left to right and
all-or-nothing: a raise midway abandons the partially built list. -/
def parseRemoteSegs : List RemoteSeg → Except String (List Segment)
  | [] => .ok []
  | r :: rest =>
    match parseRemoteSeg r with
    | .error m => .error m
    | .ok s =>
      match parseRemoteSegs rest with
      | .error m => .error m
      | .ok l => .ok (s :: l)

/-- `VideoProcessor._detect_segments_with_api` (lines 71–120): on a 200
response with a fully parsed body, return the mapped segments as-is;
on any other status, an unparseable body, a field parse failure, or a
transport failure, fall back to `_detect_segments_with_motion`. -/
def detectWithApi (cfg : Config) (resp : ApiResponse) (v : VideoSource)
    (dur : ℚ) : List Segment :=
  match resp with
  | .transportFailure => detectMotion cfg v dur
  | .http status body =>
    if status = 200 then
      match body with
      | none => detectMotion cfg v dur
      | some segs =>
        match parseRemoteSegs segs with
        | .ok l => l
        | .error _ => detectMotion cfg v dur
    else detectMotion cfg v dur

/-- Python truthiness of `self.clipping_api_key`: a nonempty string. -/
def apiKeyTruthy : Option String → Bool
  | none => false
  | some s => !s.isEmpty

/-- `VideoProcessor.detect_high_action_segments` (lines 46–69): strategy
selection — the API path iff `use_clipping_api and clipping_api_key`;
`segment_duration` defaults to `TARGET_CLIP_LENGTH`. -/
def detectHighActionSegments (cfg : Config) (resp : ApiResponse)
    (v : VideoSource) (dur : Option ℚ) : List Segment :=
  let d := dur.getD cfg.target_clip_length
  if cfg.use_clipping_api && apiKeyTruthy cfg.clipping_api_key then
    detectWithApi cfg resp v d
  else detectMotion cfg v d


/-! ## Helper lemmas -/

theorem foldl_min_le_init (l : List ℚ) (a : ℚ) : l.foldl min a ≤ a := by
  induction l generalizing a with
  | nil => simp
  | cons x xs ih => exact le_trans (ih (min a x)) (min_le_left a x)

theorem foldl_min_le_mem (l : List ℚ) (a x : ℚ) (hx : x ∈ l) :
    l.foldl min a ≤ x := by
  induction l generalizing a with
  | nil => cases hx
  | cons y ys ih =>
    rcases List.mem_cons.mp hx with rfl | hmem
    · exact le_trans (foldl_min_le_init ys (min a x)) (min_le_right a x)
    · exact ih (min a y) hmem

theorem init_le_foldl_max (l : List ℚ) (a : ℚ) : a ≤ l.foldl max a := by
  induction l generalizing a with
  | nil => simp
  | cons x xs ih => exact le_trans (le_max_left a x) (ih (max a x))

theorem mem_le_foldl_max (l : List ℚ) (a x : ℚ) (hx : x ∈ l) :
    x ≤ l.foldl max a := by
  induction l generalizing a with
  | nil => cases hx
  | cons y ys ih =>
    rcases List.mem_cons.mp hx with rfl | hmem
    · exact le_trans (le_max_right a x) (init_le_foldl_max ys (max a x))
    · exact ih (max a y) hmem

theorem listMin_le (l : List ℚ) (x : ℚ) (hx : x ∈ l) : listMin l ≤ x := by
  cases l with
  | nil => cases hx
  | cons y ys =>
    rcases List.mem_cons.mp hx with rfl | hmem
    · exact foldl_min_le_init ys x
    · exact foldl_min_le_mem ys y x hmem

theorem le_listMax (l : List ℚ) (x : ℚ) (hx : x ∈ l) : x ≤ listMax l := by
  cases l with
  | nil => cases hx
  | cons y ys =>
    rcases List.mem_cons.mp hx with rfl | hmem
    · exact init_le_foldl_max ys x
    · exact mem_le_foldl_max ys y x hmem

theorem listMin_le_listMax (l : List ℚ) (h : l ≠ []) : listMin l ≤ listMax l := by
  cases l with
  | nil => exact absurd rfl h
  | cons y ys =>
    exact le_trans (listMin_le _ y (List.mem_cons_self y ys))
      (le_listMax _ y (List.mem_cons_self y ys))

theorem qVar_nonneg (l : List ℚ) : 0 ≤ qVar l := by
  apply div_nonneg
  · apply List.sum_nonneg
    intro x hx
    obtain ⟨y, _, rfl⟩ := List.mem_map.mp hx
    positivity
  · exact_mod_cast Nat.zero_le l.length

theorem sqrt_half_lt_iff (v d : ℝ) :
    (0 < d ∧ v < 4 * d ^ 2) ↔ Real.sqrt v * (1 / 2) < d := by
  constructor
  · rintro ⟨hd, hv4⟩
    have h2 : Real.sqrt v < 2 * d :=
      (Real.sqrt_lt' (by linarith)).mpr (by nlinarith)
    linarith
  · intro h
    have h0 : 0 ≤ Real.sqrt v := Real.sqrt_nonneg v
    have hd : 0 < d := by linarith
    have h2 : Real.sqrt v < 2 * d := by linarith
    have h3 := (Real.sqrt_lt' (by linarith : (0:ℝ) < 2 * d)).mp h2
    exact ⟨hd, by nlinarith⟩

theorem aboveThreshold_iff_sqrt (scores : List ℚ) (avg : ℚ) :
    aboveThreshold scores avg = true ↔
      (qMean scores : ℝ) + Real.sqrt ((qVar scores : ℚ)) * (1 / 2) < (avg : ℝ) := by
  unfold aboveThreshold
  rw [Bool.and_eq_true, decide_eq_true_eq, decide_eq_true_eq]
  have key := sqrt_half_lt_iff ((qVar scores : ℚ) : ℝ)
    ((avg : ℝ) - ((qMean scores : ℚ) : ℝ))
  constructor
  · rintro ⟨h1, h2⟩
    have h1' : (0:ℝ) < (avg : ℝ) - ((qMean scores : ℚ) : ℝ) := by exact_mod_cast h1
    have h2' : ((qVar scores : ℚ) : ℝ) <
        4 * ((avg : ℝ) - ((qMean scores : ℚ) : ℝ)) ^ 2 := by exact_mod_cast h2
    have := key.mp ⟨h1', h2'⟩
    linarith
  · intro h
    have := key.mpr (by linarith)
    refine ⟨by exact_mod_cast this.1, by exact_mod_cast this.2⟩

theorem mem_pyRange {stop : ℤ} {step : ℕ} (hstep : 0 < step) (i : ℕ) :
    i ∈ pyRange stop step ↔ (∃ k, i = step * k) ∧ (i : ℤ) < stop := by
  unfold pyRange
  rw [List.mem_range']
  constructor
  · rintro ⟨j, hj, rfl⟩
    refine ⟨⟨j, by ring⟩, ?_⟩
    have h2 : (j + 1) * step ≤ stop.toNat + step - 1 :=
      (Nat.le_div_iff_mul_le hstep).mp hj
    have h3 : step * j + step ≤ stop.toNat + step - 1 := by
      calc step * j + step = (j + 1) * step := by ring
        _ ≤ _ := h2
    set q := step * j with hq
    omega
  · rintro ⟨⟨k, rfl⟩, hlt⟩
    have h3 : step * k + step ≤ stop.toNat + step - 1 := by
      set q := step * k with hq
      omega
    refine ⟨k, (Nat.le_div_iff_mul_le hstep).mpr ?_, by ring⟩
    calc (k + 1) * step = step * k + step := by ring
      _ ≤ _ := h3

theorem pyRange_nil {stop : ℤ} {step : ℕ} (hstop : stop ≤ 0) (hstep : 0 < step) :
    pyRange stop step = [] := by
  unfold pyRange
  have h1 : stop.toNat = 0 := by omega
  rw [h1]
  have h2 : (0 + step - 1) / step = 0 := Nat.div_eq_of_lt (by omega)
  rw [h2]
  rfl

theorem overlapB_symm (a b : Segment) : overlapB a b = overlapB b a := by
  unfold overlapB
  by_cases h1 : a.«end» ≤ b.start <;> by_cases h2 : b.«end» ≤ a.start <;>
    simp [h1, h2, ge_iff_le]

theorem overlapB_eq_false_iff (a b : Segment) :
    overlapB a b = false ↔ ¬(b.start < a.«end» ∧ a.start < b.«end») := by
  unfold overlapB
  simp only [ge_iff_le, Bool.not_eq_false', Bool.or_eq_true, decide_eq_true_eq]
  constructor
  · rintro (h | h) ⟨h1, h2⟩ <;> linarith
  · intro h
    by_cases h1 : a.«end» ≤ b.start
    · exact Or.inl h1
    · refine Or.inr ?_
      by_contra h2
      exact h ⟨lt_of_not_le h1, lt_of_not_le h2⟩

theorem removeOverlappingAux_eq_append (l : List Segment) :
    ∀ acc : List Segment, ∃ suf,
      removeOverlappingAux acc l = acc ++ suf ∧ suf.Sublist l := by
  induction l with
  | nil => intro acc; exact ⟨[], by simp [removeOverlappingAux]⟩
  | cons s rest ih =>
    intro acc
    unfold removeOverlappingAux
    by_cases hany : acc.any (fun existing => overlapB s existing) = true
    · rw [if_pos hany]
      obtain ⟨suf, hs, hsub⟩ := ih acc
      exact ⟨suf, hs, hsub.cons s⟩
    · rw [if_neg hany]
      obtain ⟨suf, hs, hsub⟩ := ih (acc ++ [s])
      refine ⟨s :: suf, ?_, hsub.cons₂ s⟩
      rw [hs, List.append_assoc]
      rfl

theorem removeOverlappingAux_pairwise (l : List Segment) :
    ∀ acc : List Segment, acc.Pairwise (fun a b => overlapB a b = false) →
      (removeOverlappingAux acc l).Pairwise (fun a b => overlapB a b = false) := by
  induction l with
  | nil => intro acc h; exact h
  | cons s rest ih =>
    intro acc hacc
    unfold removeOverlappingAux
    by_cases hany : acc.any (fun existing => overlapB s existing) = true
    · rw [if_pos hany]
      exact ih acc hacc
    · rw [if_neg hany]
      refine ih (acc ++ [s]) ?_
      rw [List.pairwise_append]
      refine ⟨hacc, List.pairwise_singleton _ s, ?_⟩
      intro a ha b hb
      have hb' : b = s := by simpa using hb
      have hfalse : acc.any (fun existing => overlapB s existing) = false :=
        Bool.eq_false_iff.mpr hany
      have hall := List.any_eq_false.mp hfalse
      rw [hb', overlapB_symm]
      simpa using hall a ha

theorem removeOverlapping_sublist (l : List Segment) :
    (removeOverlapping l).Sublist l := by
  obtain ⟨suf, hs, hsub⟩ := removeOverlappingAux_eq_append l []
  unfold removeOverlapping
  rw [hs]
  simpa using hsub

theorem removeOverlapping_pairwise (l : List Segment) :
    (removeOverlapping l).Pairwise (fun a b => overlapB a b = false) :=
  removeOverlappingAux_pairwise l [] (List.Pairwise.nil)

theorem removeOverlapping_headEq (l : List Segment) :
    (removeOverlapping l).head? = l.head? := by
  cases l with
  | nil => rfl
  | cons s rest =>
    unfold removeOverlapping removeOverlappingAux
    rw [if_neg (by simp)]
    obtain ⟨suf, hs, _⟩ := removeOverlappingAux_eq_append rest [s]
    rw [List.nil_append, hs]
    rfl

theorem normalize_length (ms : List MotionSample) :
    (normalize ms).length = ms.length := by
  simp [normalize]

theorem normalize_isEmpty (ms : List MotionSample) :
    (normalize ms).isEmpty = ms.isEmpty := by
  cases ms <;> simp [normalize]

theorem mergeSort_mem (l : List Segment) (s : Segment) :
    s ∈ sortByScoreDesc l ↔ s ∈ l :=
  (List.mergeSort_perm l _).mem_iff

theorem mkCandidate_some_bounds (cfg : Config) (lastT s e avg : ℚ) (sg : Segment)
    (h : mkCandidate cfg lastT s e avg = some sg) :
    cfg.min_clip_length ≤ sg.duration ∧ sg.duration ≤ cfg.max_clip_length ∧
      sg.duration = sg.«end» - sg.start := by
  unfold mkCandidate at h
  set s1 := if e - s < cfg.min_clip_length
    then max 0 (s - (cfg.min_clip_length - (e - s)) / 2) else s with hs1
  set e1 := if e - s < cfg.min_clip_length
    then min lastT (e + (cfg.min_clip_length - (e - s)) / 2) else e with he1
  by_cases hg : cfg.min_clip_length ≤ e1 - s1 ∧ e1 - s1 ≤ cfg.max_clip_length
  · rw [if_pos hg] at h
    obtain rfl : Segment.mk s1 e1 (e1 - s1) avg (min 1 (avg * (3 / 2))) = sg :=
      Option.some_injective _ h
    exact ⟨hg.1, hg.2, rfl⟩
  · rw [if_neg hg] at h
    cases h

theorem extract_ok_nil (cfg : Config) (ms : List NormSample) (fps dur : ℚ)
    (hne : ms.isEmpty = false) (hstep : stepSize cfg fps dur ≠ 0)
    (hkept : keptStarts cfg ms fps dur = []) :
    extractSegmentsFromScores cfg ms fps dur = .ok [] := by
  unfold extractSegmentsFromScores
  rw [if_neg (by simp [hne]), if_neg hstep, hkept]
  simp [sortByScoreDesc, removeOverlapping, removeOverlappingAux]

theorem detectMotionE_ok_shape (cfg : Config) (v : VideoSource) (dur : ℚ)
    (l : List Segment) (h : detectMotionE cfg v dur = .ok l) :
    l = [] ∨ ∃ cands, l = removeOverlapping cands := by
  cases v with
  | unopenable => exact absurd h (by simp [detectMotionE])
  | opened fps ms =>
    simp only [detectMotionE] at h
    by_cases hms : ms.isEmpty = true
    · rw [if_pos hms] at h
      refine Or.inl ?_
      injection h with h1
      exact h1.symm
    · rw [if_neg hms] at h
      simp only [extractSegmentsFromScores] at h
      by_cases hn : (normalize ms).isEmpty = true
      · rw [if_pos hn] at h
        refine Or.inl ?_
        injection h with h1
        exact h1.symm
      · rw [if_neg hn] at h
        by_cases hstep : stepSize cfg fps dur = 0
        · rw [if_pos hstep] at h
          exact Except.noConfusion h
        · rw [if_neg hstep] at h
          injection h with h1
          exact Or.inr ⟨_, h1.symm⟩

/-! ## Claim theorems -/

/-- C10: for every input list of candidate segments,
`_remove_overlapping_segments` returns a subsequence of its input — each
output segment is an unmodified input element with relative order
preserved — and when the input is non-empty its first element (the
highest-scoring one after the stable descending sort) is always accepted
into the output. -/
theorem C10_resolver_subsequence (segments : List Segment) :
    (removeOverlapping segments).Sublist segments ∧
    (removeOverlapping segments).head? = segments.head? :=
  ⟨removeOverlapping_sublist segments, removeOverlapping_headEq segments⟩

/-- C1 (amended): on the LOCAL motion path the returned sequence is always
pairwise non-overlapping under the half-open interval test
`NOT(A.end > B.start AND A.start < B.end)`; on the REMOTE path the parsed
response is returned as-is, so there the invariant holds only if the remote
service already returned non-overlapping segments (see the
counterexample). -/
theorem C1_local_no_overlap (cfg : Config) (v : VideoSource) (dur : ℚ) :
    (detectMotion cfg v dur).Pairwise
      (fun a b => ¬(b.start < a.«end» ∧ a.start < b.«end»)) := by
  have main : ∀ l : List Segment, (removeOverlapping l).Pairwise
      (fun a b => ¬(b.start < a.«end» ∧ a.start < b.«end»)) := by
    intro l
    refine (removeOverlapping_pairwise l).imp ?_
    intro a b hab
    exact (overlapB_eq_false_iff a b).mp hab
  cases hE : detectMotionE cfg v dur with
  | error m =>
    unfold detectMotion
    rw [hE]
    exact List.Pairwise.nil
  | ok l =>
    unfold detectMotion
    rw [hE]
    rcases detectMotionE_ok_shape cfg v dur l hE with rfl | ⟨cands, rfl⟩
    · exact List.Pairwise.nil
    · exact main cands

/-- C1 (counterexample): with the API strategy selected and the remote
service answering 200 with two time-overlapping items,
`detect_high_action_segments` returns both of them unchanged — the two
distinct returned segments violate the claimed half-open non-overlap
invariant (`A.end > B.start` and `A.start < B.end`). -/
theorem C1_counterexample :
    detectHighActionSegments ⟨2, 15, 60, 30, true, some "k"⟩
        (.http 200 (some [⟨some 0, some 10, some 1, some 1⟩,
          ⟨some 5, some 15, some (1/2), some (1/2)⟩]))
        .unopenable (some 30) =
      [⟨0, 10, 10, 1, 1⟩, ⟨5, 15, 10, 1/2, 1/2⟩] ∧
    (Segment.mk 0 10 10 1 1 ≠ Segment.mk 5 15 10 (1/2) (1/2)) ∧
    ((Segment.mk 5 15 10 (1/2) (1/2)).start < (Segment.mk 0 10 10 1 1).«end» ∧
      (Segment.mk 0 10 10 1 1).start < (Segment.mk 5 15 10 (1/2) (1/2)).«end») := by
  refine ⟨?_, ?_, by norm_num, by norm_num⟩
  · have hk : ("k".isEmpty) = false := rfl
    simp [detectHighActionSegments, detectWithApi, apiKeyTruthy, hk,
      parseRemoteSegs, parseRemoteSeg]
    norm_num
  · intro h
    have := congrArg Segment.start h
    norm_num at this

/-- C7: whenever the remote request fails — any non-200 status, or a
transport-level exception — `_detect_segments_with_api` returns exactly
the result of running the local motion pipeline on the same video with the
same duration parameter. -/
theorem C7_fallback_law (cfg : Config) (v : VideoSource) (dur : ℚ)
    (status : ℕ) (body : Option (List RemoteSeg)) (h : status ≠ 200) :
    detectWithApi cfg (.http status body) v dur = detectMotion cfg v dur ∧
    detectWithApi cfg .transportFailure v dur = detectMotion cfg v dur := by
  refine ⟨?_, rfl⟩
  simp only [detectWithApi]
  rw [if_neg h]

/-- C7 (witness): instantiated at an HTTP 500 response. -/
theorem C7_witness :
    detectWithApi defaultConfig (.http 500 none) .unopenable 30 =
      detectMotion defaultConfig .unopenable 30 :=
  (C7_fallback_law defaultConfig .unopenable 30 500 none (by decide)).1

/-- C9: every non-200 response, every unparseable body, and every field
parse failure is handled identically to the service-unavailable case: the
engine falls back to the local pipeline, and it never returns segments
built from a partially parsed remote response — the 200 path either
returns a fully parsed list or the full local fallback. -/
theorem C9_remote_failure_handling (cfg : Config) (v : VideoSource) (dur : ℚ) :
    (∀ status body, status ≠ 200 →
      detectWithApi cfg (.http status body) v dur = detectMotion cfg v dur) ∧
    (detectWithApi cfg (.http 200 none) v dur = detectMotion cfg v dur) ∧
    (∀ segs msg, parseRemoteSegs segs = .error msg →
      detectWithApi cfg (.http 200 (some segs)) v dur = detectMotion cfg v dur) ∧
    (∀ segs, detectWithApi cfg (.http 200 (some segs)) v dur =
        detectMotion cfg v dur ∨
      ∃ l, parseRemoteSegs segs = .ok l ∧
        detectWithApi cfg (.http 200 (some segs)) v dur = l) := by
  refine ⟨?_, rfl, ?_, ?_⟩
  · intro status body h
    simp only [detectWithApi]
    rw [if_neg h]
  · intro segs msg h
    simp [detectWithApi, h]
  · intro segs
    cases hp : parseRemoteSegs segs with
    | ok l => exact Or.inr ⟨l, rfl, by simp [detectWithApi, hp]⟩
    | error m => exact Or.inl (by simp [detectWithApi, hp])

/-- C9 (witness): instantiated at a 200 response whose single item lacks
the mandatory `start_time` field. -/
theorem C9_witness :
    detectWithApi defaultConfig
        (.http 200 (some [⟨none, some 1, none, none⟩])) .unopenable 30 =
      detectMotion defaultConfig .unopenable 30 :=
  (C9_remote_failure_handling defaultConfig .unopenable 30).2.2.1
    [⟨none, some 1, none, none⟩] "KeyError" (by simp [parseRemoteSegs, parseRemoteSeg])

/-- C2: for every video and configuration, the detector boundary of
`_detect_segments_with_motion` converts every internal failure into an
empty sequence: any raised error, an unopenable source, a degenerate
signal of at most one motion sample, and a run in which no window clears
the statistical threshold all yield `[]` — no exception reaches the
caller. -/
theorem C2_detector_boundary (cfg : Config) (v : VideoSource) (dur : ℚ) :
    (∀ msg, detectMotionE cfg v dur = .error msg → detectMotion cfg v dur = []) ∧
    (v = .unopenable → detectMotion cfg v dur = []) ∧
    (∀ fps ms, v = .opened fps ms → ms.length ≤ 1 →
      detectMotion cfg v dur = []) ∧
    (∀ fps ms, v = .opened fps ms →
      (∀ i ∈ windowStarts cfg fps dur ms.length,
        aboveThreshold ((normalize ms).map (·.normalized_score))
          (windowAvg (normalize ms) i (windowSize cfg fps dur)) = false) →
      detectMotion cfg v dur = []) := by
  refine ⟨?_, ?_, ?_, ?_⟩
  · intro msg h
    unfold detectMotion
    rw [h]
  · rintro rfl
    rfl
  · rintro fps ms rfl hlen
    rcases ms with _ | ⟨m, _ | ⟨m2, rest⟩⟩
    · rfl
    · by_cases hstep : stepSize cfg fps dur = 0
      · have hE : detectMotionE cfg (.opened fps [m]) dur =
            .error "range arg 3 must not be zero" := by
          simp only [detectMotionE]
          rw [if_neg (by simp)]
          simp only [extractSegmentsFromScores]
          rw [if_neg (by simp [normalize]), if_pos hstep]
        unfold detectMotion
        rw [hE]
      · have hws : 2 ≤ windowSize cfg fps dur := by
          have := hstep
          unfold stepSize at this
          omega
        have hstarts : windowStarts cfg fps dur 1 = [] := by
          unfold windowStarts
          exact pyRange_nil (by omega) (Nat.pos_of_ne_zero hstep)
        have hkept : keptStarts cfg (normalize [m]) fps dur = [] := by
          unfold keptStarts
          rw [normalize_length, show ([m] : List MotionSample).length = 1 from rfl,
            hstarts]
          rfl
        have hE : detectMotionE cfg (.opened fps [m]) dur = .ok [] := by
          simp only [detectMotionE]
          rw [if_neg (by simp)]
          exact extract_ok_nil cfg (normalize [m]) fps dur
            (by simp [normalize]) hstep hkept
        unfold detectMotion
        rw [hE]
    · simp at hlen
  · rintro fps ms rfl hall
    by_cases hms : ms.isEmpty = true
    · have hE : detectMotionE cfg (.opened fps ms) dur = .ok [] := by
        simp only [detectMotionE]
        rw [if_pos hms]
      unfold detectMotion
      rw [hE]
    · by_cases hstep : stepSize cfg fps dur = 0
      · have hE : detectMotionE cfg (.opened fps ms) dur =
            .error "range arg 3 must not be zero" := by
          simp only [detectMotionE]
          rw [if_neg hms]
          simp only [extractSegmentsFromScores]
          rw [if_neg (by rw [normalize_isEmpty]; exact hms), if_pos hstep]
        unfold detectMotion
        rw [hE]
      · have hkept : keptStarts cfg (normalize ms) fps dur = [] := by
          unfold keptStarts
          rw [normalize_length]
          refine List.filter_eq_nil_iff.mpr ?_
          intro i hi
          rw [hall i hi]
          simp
        have hE : detectMotionE cfg (.opened fps ms) dur = .ok [] := by
          simp only [detectMotionE]
          rw [if_neg hms]
          exact extract_ok_nil cfg (normalize ms) fps dur
            (by rw [normalize_isEmpty]; exact Bool.eq_false_iff.mpr hms) hstep hkept
        unfold detectMotion
        rw [hE]

/-- C2 (witness): instantiated at an unopenable source. -/
theorem C2_witness : detectMotion defaultConfig .unopenable 30 = [] :=
  (C2_detector_boundary defaultConfig .unopenable 30).2.1 rfl

/-- C8: the claim says a misconfiguration producing a non-positive window
length must propagate to the caller as a fatal configuration error.  The
code violates this: with `fps = 1/15`, `segment_duration = 30` and
`frame_sample_rate = 2`, `window_size = int(1) = 1`, so `step_size = 0`
and the sliding-window loop raises (Python `range` with step 0), but the
broad `except Exception` of `_detect_segments_with_motion` catches it and
returns the empty sequence exactly like a data-driven failure. -/
theorem C8_config_error_swallowed :
    stepSize defaultConfig (1/15) 30 = 0 ∧
    detectMotionE defaultConfig (.opened (1/15) [⟨0, 0, 0⟩, ⟨2, 30, 1⟩]) 30 =
      .error "range arg 3 must not be zero" ∧
    detectMotion defaultConfig (.opened (1/15) [⟨0, 0, 0⟩, ⟨2, 30, 1⟩]) 30 = [] := by
  have hws : windowSize defaultConfig (1/15) 30 = 1 := by
    unfold windowSize
    have hfl : ⌊(1/15 : ℚ) * 30 / ((defaultConfig.frame_sample_rate : ℕ) : ℚ)⌋ = 1 := by
      rw [Int.floor_eq_iff]
      constructor <;> norm_num [defaultConfig]
    rw [hfl]
    rfl
  have hstep : stepSize defaultConfig (1/15) 30 = 0 := by
    unfold stepSize
    rw [hws]
  have hE : detectMotionE defaultConfig
      (.opened (1/15) [⟨0, 0, 0⟩, ⟨2, 30, 1⟩]) 30 =
      .error "range arg 3 must not be zero" := by
    simp only [detectMotionE]
    rw [if_neg (by simp)]
    simp only [extractSegmentsFromScores]
    rw [if_neg (by simp [normalize]), if_pos hstep]
  refine ⟨hstep, hE, ?_⟩
  unfold detectMotion
  rw [hE]

/-- C3 (counterexample): the claim fails on two counts.  The window
length is Python `int()` truncation, not `round`: at `fps = 29.97`,
`T = 30`, `s = 2` the code computes `int(449.55) = 449` while `round`
gives 450.  And the loop bound is strict (`range(0, len - window_size,
step)`): with `window_size = 2` and exactly 2 samples the start index 0
satisfies `0 + window_length ≤ len(samples)`, yet no window is
evaluated. -/
theorem C3_counterexample :
    (windowSize defaultConfig (2997/100) 30 = 449 ∧
      round ((2997/100 : ℚ) * 30 / ((defaultConfig.frame_sample_rate : ℕ) : ℚ)) =
        (450 : ℤ)) ∧
    (windowSize defaultConfig 1 4 = 2 ∧ 0 + windowSize defaultConfig 1 4 ≤ 2 ∧
      windowStarts defaultConfig 1 4 2 = []) := by
  have hws2 : windowSize defaultConfig 1 4 = 2 := by
    unfold windowSize
    have hfl : ⌊(1 : ℚ) * 4 / ((defaultConfig.frame_sample_rate : ℕ) : ℚ)⌋ = 2 := by
      rw [Int.floor_eq_iff]
      constructor <;> norm_num [defaultConfig]
    rw [hfl]
    rfl
  refine ⟨⟨?_, ?_⟩, hws2, by rw [hws2], ?_⟩
  · unfold windowSize
    have hfl : ⌊(2997/100 : ℚ) * 30 / ((defaultConfig.frame_sample_rate : ℕ) : ℚ)⌋ =
        449 := by
      rw [Int.floor_eq_iff]
      constructor <;> norm_num [defaultConfig]
    rw [hfl]
    rfl
  · rw [round_eq, Int.floor_eq_iff]
    constructor <;> norm_num [defaultConfig]
  · have hstep1 : stepSize defaultConfig 1 4 = 1 := by
      unfold stepSize
      rw [hws2]
    unfold windowStarts
    rw [hws2, hstep1]
    exact pyRange_nil (by norm_num) one_pos

/-- C3 (amended): the window length in samples equals `int(fps · T / s)`
(truncation — the floor, for the non-negative values arising here), the
step equals `window_length // 2`, and the window is evaluated exactly at
the start indices that are multiples of the step with
`index + window_length < len(samples)` (strict) — a window ending exactly
at the end of the sample sequence is NOT evaluated. -/
theorem C3_window_geometry (cfg : Config) (fps dur : ℚ) (n : ℕ)
    (h0 : 0 ≤ fps * dur / (cfg.frame_sample_rate : ℚ))
    (hstep : 0 < stepSize cfg fps dur) :
    ((windowSize cfg fps dur : ℚ) ≤ fps * dur / (cfg.frame_sample_rate : ℚ) ∧
      fps * dur / (cfg.frame_sample_rate : ℚ) < (windowSize cfg fps dur : ℚ) + 1) ∧
    stepSize cfg fps dur = windowSize cfg fps dur / 2 ∧
    (∀ i : ℕ, i ∈ windowStarts cfg fps dur n ↔
      ((∃ k, i = stepSize cfg fps dur * k) ∧ i + windowSize cfg fps dur < n)) := by
  have hq0 : (0:ℤ) ≤ ⌊fps * dur / (cfg.frame_sample_rate : ℚ)⌋ :=
    Int.floor_nonneg.mpr h0
  have h1 : ((windowSize cfg fps dur : ℕ) : ℤ) =
      ⌊fps * dur / (cfg.frame_sample_rate : ℚ)⌋ := Int.toNat_of_nonneg hq0
  have hcast : ((windowSize cfg fps dur : ℕ) : ℚ) =
      ((⌊fps * dur / (cfg.frame_sample_rate : ℚ)⌋ : ℤ) : ℚ) := by
    exact_mod_cast congrArg (fun z : ℤ => (z : ℚ)) h1
  refine ⟨⟨?_, ?_⟩, rfl, ?_⟩
  · rw [hcast]
    exact Int.floor_le _
  · rw [hcast]
    exact Int.lt_floor_add_one _
  · intro i
    unfold windowStarts
    rw [mem_pyRange hstep]
    constructor
    · rintro ⟨hk, hlt⟩
      exact ⟨hk, by omega⟩
    · rintro ⟨hk, hlt⟩
      exact ⟨hk, by omega⟩

/-- C3 (witness): instantiated at `fps = 30`, `T = 30`, `s = 2`,
1000 samples, where `window_size = 450` and `step = 225`: index 0 is a
visited window start. -/
theorem C3_witness : (0 : ℕ) ∈ windowStarts defaultConfig 30 30 1000 := by
  have h450 : windowSize defaultConfig 30 30 = 450 := by
    unfold windowSize
    have hfl : ⌊(30 : ℚ) * 30 / ((defaultConfig.frame_sample_rate : ℕ) : ℚ)⌋ =
        450 := by
      rw [Int.floor_eq_iff]
      constructor <;> norm_num [defaultConfig]
    rw [hfl]
    rfl
  have hstep : stepSize defaultConfig 30 30 = 225 := by
    unfold stepSize
    rw [h450]
  have h := C3_window_geometry defaultConfig 30 30 1000
    (by norm_num [defaultConfig]) (by rw [hstep]; norm_num)
  exact (h.2.2 0).mpr ⟨⟨0, by simp⟩, by rw [h450]; norm_num⟩

/-- C4 (counterexample): in a 40-second video whose last sampled motion
timestamp is 30 s, the too-short window `[28, 30]` (duration 2 < 15) has
the symmetric extension `[21.5, 36.5]`, which lies entirely within
`[0, video_duration] = [0, 40]` — so under the claim's wording the window
is extended to duration 15 = `min_duration` and kept as a Segment.  The
code instead clips the extension at the last sampled timestamp 30
(line 261), leaving duration 8.5 < 15, and rejects the window: the
observable outcomes differ. -/
theorem C4_counterexample :
    mkCandidate defaultConfig 30 28 30 1 = none ∧
    mkCandidateClaim defaultConfig 40 28 30 1 =
      some ⟨43/2, 73/2, 15, 1, 1⟩ ∧
    (0 : ℚ) ≤ 28 - (defaultConfig.min_clip_length - (30 - 28)) / 2 ∧
    30 + (defaultConfig.min_clip_length - (30 - 28)) / 2 ≤ (40 : ℚ) ∧
    (30 : ℚ) ≤ 40 := by
  refine ⟨?_, ?_, ?_, ?_, ?_⟩
  · unfold mkCandidate
    norm_num [defaultConfig]
  · unfold mkCandidateClaim
    norm_num [defaultConfig]
  · norm_num [defaultConfig]
  · norm_num [defaultConfig]
  · norm_num

/-- C4 (amended): the duration clamper extends a too-short window
symmetrically by `(min_duration − duration)/2` per side, with the
extension clipped to `[0, last sampled timestamp]`
(`motion_scores[-1]['time']`) — not to the full video duration as the
claim states; a window whose (possibly extended) duration exceeds
`max_duration` is rejected outright, never truncated; and consequently
every segment in an `_extract_segments_from_scores` result satisfies
`min_duration ≤ duration ≤ max_duration`. -/
theorem C4_duration_clamper (cfg : Config) (lastT s e avg : ℚ) :
    (∀ ms fps dur l, extractSegmentsFromScores cfg ms fps dur = .ok l →
      ∀ sg ∈ l, cfg.min_clip_length ≤ sg.duration ∧
        sg.duration ≤ cfg.max_clip_length) ∧
    (∀ sg, mkCandidate cfg lastT s e avg = some sg →
      cfg.min_clip_length ≤ sg.duration ∧ sg.duration ≤ cfg.max_clip_length ∧
        sg.duration = sg.«end» - sg.start) ∧
    (e - s < cfg.min_clip_length → ∀ sg, mkCandidate cfg lastT s e avg = some sg →
      sg.start = max 0 (s - (cfg.min_clip_length - (e - s)) / 2) ∧
        sg.«end» = min lastT (e + (cfg.min_clip_length - (e - s)) / 2)) ∧
    (cfg.min_clip_length ≤ e - s → ∀ sg, mkCandidate cfg lastT s e avg = some sg →
      sg.start = s ∧ sg.«end» = e) ∧
    (∀ s1 e1 : ℚ,
      s1 = (if e - s < cfg.min_clip_length
        then max 0 (s - (cfg.min_clip_length - (e - s)) / 2) else s) →
      e1 = (if e - s < cfg.min_clip_length
        then min lastT (e + (cfg.min_clip_length - (e - s)) / 2) else e) →
      cfg.max_clip_length < e1 - s1 →
      mkCandidate cfg lastT s e avg = none) := by
  refine ⟨?_, ?_, ?_, ?_, ?_⟩
  · intro ms fps dur l hok sg hsg
    simp only [extractSegmentsFromScores] at hok
    by_cases hms : ms.isEmpty = true
    · rw [if_pos hms] at hok
      injection hok with h1
      subst h1
      cases hsg
    · rw [if_neg hms] at hok
      by_cases hstep : stepSize cfg fps dur = 0
      · rw [if_pos hstep] at hok
        exact Except.noConfusion hok
      · rw [if_neg hstep] at hok
        injection hok with h1
        subst h1
        have h2 : sg ∈ sortByScoreDesc
            ((keptStarts cfg ms fps dur).filterMap (candidateOfStart cfg ms fps dur)) :=
          (removeOverlapping_sublist _).subset hsg
        have h3 := (mergeSort_mem _ sg).mp h2
        obtain ⟨i, _, hc⟩ := List.mem_filterMap.mp h3
        simp only [candidateOfStart] at hc
        split at hc
        · have hb := mkCandidate_some_bounds cfg _ _ _ _ sg hc
          exact ⟨hb.1, hb.2.1⟩
        · exact Option.noConfusion hc
  · intro sg hmk
    exact mkCandidate_some_bounds cfg lastT s e avg sg hmk
  · intro hd sg hmk
    simp only [mkCandidate, if_pos hd] at hmk
    split at hmk
    · injection hmk with h1
      subst h1
      exact ⟨rfl, rfl⟩
    · exact Option.noConfusion hmk
  · intro hd sg hmk
    simp only [mkCandidate, if_neg (not_lt.mpr hd)] at hmk
    split at hmk
    · injection hmk with h1
      subst h1
      exact ⟨rfl, rfl⟩
    · exact Option.noConfusion hmk
  · intro s1 e1 hs1 he1 hgt
    simp only [mkCandidate]
    rw [← hs1, ← he1, if_neg (by rintro ⟨h1, h2⟩; linarith)]

/-- C4 (witness): a 10-second window `[10, 20]` with `min = 15`,
`max = 60`: it is extended to `[7.5, 22.5]` and the resulting segment
satisfies the duration bounds. -/
theorem C4_witness :
    defaultConfig.min_clip_length ≤ (Segment.mk (15/2) (45/2) 15 1 1).duration ∧
      (Segment.mk (15/2) (45/2) 15 1 1).duration ≤ defaultConfig.max_clip_length := by
  have hmk : mkCandidate defaultConfig 100 10 20 1 =
      some ⟨15/2, 45/2, 15, 1, 1⟩ := by
    unfold mkCandidate
    norm_num [defaultConfig]
  have hb := (C4_duration_clamper defaultConfig 100 10 20 1).2.1
    ⟨15/2, 45/2, 15, 1, 1⟩ hmk
  exact ⟨hb.1, hb.2.1⟩

/-- C5: min-max normalization — each normalized score equals
`(raw − min) / (max − min)` with denominator 1 when `max = min`; all
normalized scores lie in `[0, 1]`; a minimum-scoring sample maps to 0; a
maximum-scoring sample maps to 1 when the range is non-degenerate; and
when all raw scores are equal every normalized score is 0. -/
theorem C5_normalize_props (ms : List MotionSample) (h : ms ≠ []) :
    (∀ x ∈ normalize ms, x.normalized_score =
      (x.score - listMin (ms.map (·.score))) /
        (if listMin (ms.map (·.score)) < listMax (ms.map (·.score))
          then listMax (ms.map (·.score)) - listMin (ms.map (·.score)) else 1)) ∧
    (∀ x ∈ normalize ms, 0 ≤ x.normalized_score ∧ x.normalized_score ≤ 1) ∧
    (∀ x ∈ normalize ms, x.score = listMin (ms.map (·.score)) →
      x.normalized_score = 0) ∧
    (listMin (ms.map (·.score)) < listMax (ms.map (·.score)) →
      ∀ x ∈ normalize ms, x.score = listMax (ms.map (·.score)) →
        x.normalized_score = 1) ∧
    (listMin (ms.map (·.score)) = listMax (ms.map (·.score)) →
      ∀ x ∈ normalize ms, x.normalized_score = 0) := by
  have hmnle : ∀ m ∈ ms, listMin (ms.map (·.score)) ≤ m.score := fun m hm =>
    listMin_le _ _ (List.mem_map.mpr ⟨m, hm, rfl⟩)
  have hmxge : ∀ m ∈ ms, m.score ≤ listMax (ms.map (·.score)) := fun m hm =>
    le_listMax _ _ (List.mem_map.mpr ⟨m, hm, rfl⟩)
  have hminmax : listMin (ms.map (·.score)) ≤ listMax (ms.map (·.score)) :=
    listMin_le_listMax _ (fun hc => h (List.map_eq_nil.mp hc))
  have hmemx : ∀ x, x ∈ normalize ms → ∃ m, m ∈ ms ∧
      x.score = m.score ∧
      x.normalized_score = (m.score - listMin (ms.map (·.score))) / scoreRange ms := by
    intro x hx
    simp only [normalize] at hx
    obtain ⟨m, hm, hxe⟩ := List.mem_map.mp hx
    refine ⟨m, hm, ?_, ?_⟩ <;> rw [← hxe]
  refine ⟨?_, ?_, ?_, ?_, ?_⟩
  · intro x hx
    obtain ⟨m, hm, hxs, hxn⟩ := hmemx x hx
    rw [hxn, hxs]
    rfl
  · intro x hx
    obtain ⟨m, hm, hxs, hxn⟩ := hmemx x hx
    rw [hxn]
    by_cases hlt : listMin (ms.map (·.score)) < listMax (ms.map (·.score))
    · have hr : scoreRange ms =
          listMax (ms.map (·.score)) - listMin (ms.map (·.score)) := by
        simp only [scoreRange]
        rw [if_pos hlt]
      rw [hr]
      constructor
      · apply div_nonneg
        · linarith [hmnle m hm]
        · linarith
      · rw [div_le_one (by linarith)]
        linarith [hmxge m hm]
    · have heq : listMin (ms.map (·.score)) = listMax (ms.map (·.score)) :=
        le_antisymm hminmax (not_lt.mp hlt)
      have hr : scoreRange ms = 1 := by
        simp only [scoreRange]
        rw [if_neg hlt]
      have hsc : m.score = listMin (ms.map (·.score)) :=
        le_antisymm (heq ▸ hmxge m hm) (hmnle m hm)
      rw [hr, hsc]
      norm_num
  · intro x hx hxmin
    obtain ⟨m, hm, hxs, hxn⟩ := hmemx x hx
    rw [hxs] at hxmin
    rw [hxn, hxmin]
    simp
  · intro hlt x hx hxmax
    obtain ⟨m, hm, hxs, hxn⟩ := hmemx x hx
    rw [hxs] at hxmax
    have hr : scoreRange ms =
        listMax (ms.map (·.score)) - listMin (ms.map (·.score)) := by
      simp only [scoreRange]
      rw [if_pos hlt]
    rw [hxn, hxmax, hr]
    exact div_self (ne_of_gt (by linarith))
  · intro heq x hx
    obtain ⟨m, hm, hxs, hxn⟩ := hmemx x hx
    have hsc : m.score = listMin (ms.map (·.score)) :=
      le_antisymm (heq ▸ hmxge m hm) (hmnle m hm)
    rw [hxn, hsc]
    simp

/-- C5 (witness): raw scores `[2, 4]` normalize to `[0, 1]`; the
maximum-scoring sample's normalized score lies in `[0, 1]`. -/
theorem C5_witness :
    0 ≤ (NormSample.mk 1 1 4 1).normalized_score ∧
      (NormSample.mk 1 1 4 1).normalized_score ≤ 1 := by
  have hnorm : normalize [⟨0, 0, 2⟩, ⟨1, 1, 4⟩] =
      [⟨0, 0, 2, 0⟩, ⟨1, 1, 4, 1⟩] := by
    simp [normalize, scoreRange, listMin, listMax]
    norm_num
  exact (C5_normalize_props [⟨0, 0, 2⟩, ⟨1, 1, 4⟩] (by simp)).2.1 ⟨1, 1, 4, 1⟩
    (by rw [hnorm]; simp)

/-- C6: for a non-empty normalized sample sequence, a window start is kept
as a candidate if and only if it is a visited window start whose average
normalized score strictly exceeds
`mean(all normalized scores) + 0.5 · stddev(all normalized scores)`, the
threshold being computed once over the whole sequence. -/
theorem C6_threshold_rule (cfg : Config) (ms : List NormSample) (fps dur : ℚ)
    (h : ms ≠ []) (i : ℕ) :
    i ∈ keptStarts cfg ms fps dur ↔
      (i ∈ windowStarts cfg fps dur ms.length ∧
        (qMean (ms.map (·.normalized_score)) : ℝ) +
            Real.sqrt ((qVar (ms.map (·.normalized_score)) : ℚ)) * (1 / 2) <
          ((windowAvg ms i (windowSize cfg fps dur) : ℚ) : ℝ)) := by
  unfold keptStarts
  rw [List.mem_filter]
  constructor
  · rintro ⟨h1, h2⟩
    exact ⟨h1, (aboveThreshold_iff_sqrt _ _).mp h2⟩
  · rintro ⟨h1, h2⟩
    exact ⟨h1, (aboveThreshold_iff_sqrt _ _).mpr h2⟩

/-- C6 (witness): three normalized samples `[1, 1, 0]` at `fps = 2`,
`T = 2`, stride 2 (`window_size = 2`, step 1): index 0 is kept, so its
window average exceeds `mean + 0.5·stddev`. -/
theorem C6_witness :
    (0 : ℕ) ∈ windowStarts defaultConfig 2 2
        ([⟨0, 0, 1, 1⟩, ⟨2, 1, 1, 1⟩, ⟨4, 2, 1, 0⟩] : List NormSample).length ∧
      (qMean (([⟨0, 0, 1, 1⟩, ⟨2, 1, 1, 1⟩, ⟨4, 2, 1, 0⟩] : List NormSample).map
            (·.normalized_score)) : ℝ) +
          Real.sqrt ((qVar (([⟨0, 0, 1, 1⟩, ⟨2, 1, 1, 1⟩, ⟨4, 2, 1, 0⟩] :
            List NormSample).map (·.normalized_score)) : ℚ)) * (1 / 2) <
        ((windowAvg ([⟨0, 0, 1, 1⟩, ⟨2, 1, 1, 1⟩, ⟨4, 2, 1, 0⟩] : List NormSample)
          0 (windowSize defaultConfig 2 2) : ℚ) : ℝ) := by
  have hws : windowSize defaultConfig 2 2 = 2 := by
    unfold windowSize
    have hfl : ⌊(2 : ℚ) * 2 / ((defaultConfig.frame_sample_rate : ℕ) : ℚ)⌋ = 2 := by
      rw [Int.floor_eq_iff]
      constructor <;> norm_num [defaultConfig]
    rw [hfl]
    rfl
  have hstep : stepSize defaultConfig 2 2 = 1 := by
    unfold stepSize
    rw [hws]
  have hstarts : windowStarts defaultConfig 2 2 3 = [0] := by
    unfold windowStarts
    rw [hws, hstep]
    rfl
  have habove : aboveThreshold
      (([⟨0, 0, 1, 1⟩, ⟨2, 1, 1, 1⟩, ⟨4, 2, 1, 0⟩] : List NormSample).map
        (·.normalized_score))
      (windowAvg ([⟨0, 0, 1, 1⟩, ⟨2, 1, 1, 1⟩, ⟨4, 2, 1, 0⟩] : List NormSample)
        0 (windowSize defaultConfig 2 2)) = true := by
    rw [hws]
    simp only [aboveThreshold, windowAvg, windowSlice, qMean, qVar, List.map_cons,
      List.map_nil, List.take, List.drop, Bool.and_eq_true, decide_eq_true_eq]
    norm_num
  have hkept : (0 : ℕ) ∈ keptStarts defaultConfig
      ([⟨0, 0, 1, 1⟩, ⟨2, 1, 1, 1⟩, ⟨4, 2, 1, 0⟩] : List NormSample) 2 2 := by
    unfold keptStarts
    rw [show ([⟨0, 0, 1, 1⟩, ⟨2, 1, 1, 1⟩, ⟨4, 2, 1, 0⟩] :
      List NormSample).length = 3 from rfl, hstarts, List.mem_filter]
    refine ⟨by simp, ?_⟩
    simpa using habove
  exact (C6_threshold_rule defaultConfig
    ([⟨0, 0, 1, 1⟩, ⟨2, 1, 1, 1⟩, ⟨4, 2, 1, 0⟩] : List NormSample) 2 2
    (by simp) 0).mp hkept

end Clipping
